import Mathlib

/-!
A shallow embedding of the tic-tac-toe board/rules engine from
`src/game_model.rs`, together with proofs of the specified properties.

Rust `usize` values are modelled as `Nat`; Rust `Result<(), String>` as
`Except String Unit`; methods taking `&mut self` are modelled as functions
returning the result paired with the (possibly updated) board.
-/

namespace TicTacToe

/-- Embeds `Piece` from game_model.rs: the two marks. -/
inductive Piece where
  | X
  | O
deriving DecidableEq, Repr

/-- Embeds `CellState` from game_model.rs: a cell is empty or holds a piece. -/
inductive CellState where
  | Empty
  | Occupied (piece : Piece)
deriving DecidableEq, Repr

/-- Embeds `Default for CellState` from game_model.rs. -/
def CellState.default : CellState := CellState.Empty

/-- Embeds `Player` from game_model.rs: a role (computer or human) carrying a piece. -/
inductive Player where
  | Computer (piece : Piece)
  | Human (piece : Piece)
deriving DecidableEq, Repr

/-- Embeds `Player::piece` from game_model.rs. -/
def Player.piece : Player → Piece
  | .Computer piece => piece
  | .Human piece => piece

/-- Embeds `PlayerID` from game_model.rs. -/
inductive PlayerID where
  | Player1
  | Player2
deriving DecidableEq, Repr

/-- The 3×3 grid of cells, `cells: [[CellState; 3]; 3]` from game_model.rs. -/
def Cells := Fin 3 → Fin 3 → CellState

instance : DecidableEq Cells :=
  inferInstanceAs (DecidableEq (Fin 3 → Fin 3 → CellState))

/-- Embeds `GameBoard` from game_model.rs. -/
structure GameBoard where
  player_1 : Player
  player_2 : Player
  next_up : PlayerID
  cells : Cells

instance : DecidableEq GameBoard := fun a b =>
  decidable_of_iff
    (a.player_1 = b.player_1 ∧ a.player_2 = b.player_2 ∧
      a.next_up = b.next_up ∧ a.cells = b.cells)
    (by cases a; cases b; simp)

/-- Embeds `Coordinate` from game_model.rs: `row` and `col` are `usize`. -/
structure Coordinate where
  row : Nat
  col : Nat
deriving DecidableEq, Repr

def Coordinate.TOP_LEFT : Coordinate := ⟨0, 0⟩
def Coordinate.TOP_CENTER : Coordinate := ⟨0, 1⟩
def Coordinate.TOP_RIGHT : Coordinate := ⟨0, 2⟩
def Coordinate.MIDDLE_LEFT : Coordinate := ⟨1, 0⟩
def Coordinate.MIDDLE_CENTER : Coordinate := ⟨1, 1⟩
def Coordinate.MIDDLE_RIGHT : Coordinate := ⟨1, 2⟩
def Coordinate.BOTTOM_LEFT : Coordinate := ⟨2, 0⟩
def Coordinate.BOTTOM_CENTER : Coordinate := ⟨2, 1⟩
def Coordinate.BOTTOM_RIGHT : Coordinate := ⟨2, 2⟩

/-- Embeds `GameState` from game_model.rs (the status enum returned by `game_state`). -/
inductive GameState where
  | Winner (player : Player)
  | Draw
  | InProgress
deriving DecidableEq, Repr

/-- Rust array read `self.cells[coordinate.row()][coordinate.col()]` with
`usize` indices: `none` models the out-of-bounds panic (shown unreachable
for every coordinate produced by `coordinate_at_position`). -/
def readCell (cells : Cells) (coordinate : Coordinate) : Option CellState :=
  if h : coordinate.row < 3 ∧ coordinate.col < 3 then
    some (cells ⟨coordinate.row, h.1⟩ ⟨coordinate.col, h.2⟩)
  else
    none

/-- Rust array write `self.cells[coordinate.row()][coordinate.col()] = cell`.
An out-of-bounds write would panic in Rust; here no index matches, and the
bounds theorem shows every reached coordinate is in bounds. -/
def writeCell (cells : Cells) (coordinate : Coordinate) (cell : CellState) : Cells :=
  fun i j => if i.val = coordinate.row ∧ j.val = coordinate.col then cell else cells i j

/-- Embeds `GameBoard::POSITIONS`, the range `1..=9`, as the list of its elements. -/
def POSITIONS : List Nat := List.range' 1 9

/-- Embeds `GameBoard::coordinate_at_position` from game_model.rs, with the match
arms in source order. -/
def coordinate_at_position (position : Nat) : Option Coordinate :=
  match position with
  | 1 => some Coordinate.TOP_LEFT
  | 3 => some Coordinate.TOP_RIGHT
  | 4 => some Coordinate.MIDDLE_LEFT
  | 2 => some Coordinate.TOP_CENTER
  | 5 => some Coordinate.MIDDLE_CENTER
  | 6 => some Coordinate.MIDDLE_RIGHT
  | 7 => some Coordinate.BOTTOM_LEFT
  | 8 => some Coordinate.BOTTOM_CENTER
  | 9 => some Coordinate.BOTTOM_RIGHT
  | _ => none

/-- The error string `format!("{position} is not a valid game board position")`. -/
def invalidPositionMessage (position : Nat) : String :=
  toString position ++ " is not a valid game board position"

/-- The error string for an occupied cell. -/
def occupiedMessage : String := "Spot on board is already occupied"

/-- Embeds `GameBoard::get_cell_at_position` from game_model.rs. -/
def get_cell_at_position (b : GameBoard) (position : Nat) : Option CellState :=
  (coordinate_at_position position).bind (readCell b.cells)

/-- Embeds `GameBoard::set_cell_at_position` from game_model.rs (`&mut self` modelled
by returning the updated board alongside the `Result`). -/
def set_cell_at_position (b : GameBoard) (cell : CellState) (position : Nat) :
    Except String Unit × GameBoard :=
  match coordinate_at_position position with
  | none => (.error (invalidPositionMessage position), b)
  | some coordinate => (.ok (), { b with cells := writeCell b.cells coordinate cell })

/-- Embeds `GameBoard::play_next_up_at_position` from game_model.rs. -/
def play_next_up_at_position (b : GameBoard) (position : Nat) :
    Except String Unit × GameBoard :=
  match get_cell_at_position b position with
  | none => (.error (invalidPositionMessage position), b)
  | some cell =>
    match cell with
    | .Occupied _ => (.error occupiedMessage, b)
    | .Empty =>
      let next_piece :=
        match b.next_up with
        | .Player1 => b.player_1.piece
        | .Player2 => b.player_2.piece
      match set_cell_at_position b (.Occupied next_piece) position with
      | (.error e, b') => (.error e, b')
      | (.ok _, b') =>
        (.ok (),
          { b' with
            next_up :=
              match b'.next_up with
              | .Player1 => PlayerID.Player2
              | .Player2 => PlayerID.Player1 })

/-- Embeds `GameBoard::get_rows` from game_model.rs. -/
def get_rows (b : GameBoard) : List (List CellState) :=
  List.ofFn fun row : Fin 3 => List.ofFn fun col : Fin 3 => b.cells row col

/-- Embeds `GameBoard::get_columns` from game_model.rs. -/
def get_columns (b : GameBoard) : List (List CellState) :=
  List.ofFn fun col : Fin 3 => List.ofFn fun row : Fin 3 => b.cells row col

/-- Embeds `GameBoard::get_diagonals` from game_model.rs. -/
def get_diagonals (b : GameBoard) : List (List CellState) :=
  [List.ofFn fun i : Fin 3 => b.cells i i,
   List.ofFn fun i : Fin 3 => b.cells i (2 - i)]

/-- Embeds `GameBoard::determine_winner_of_line` from game_model.rs: read the first
cell of the line (Rust indexes `line[0]`; on the empty slice that panics, and
every caller passes a length-3 line); if it holds a piece and every cell of
the line holds that same piece, that piece wins the line. -/
def determine_winner_of_line (line : List CellState) : Option Piece :=
  match line with
  | [] => none
  | first :: _ =>
    match first with
    | .Empty => none
    | .Occupied piece =>
      if line.countP (fun cell => decide (cell = CellState.Occupied piece)) = line.length then
        some piece
      else
        none

/-- Embeds `GameBoard::determine_winner` from game_model.rs: scan rows, then
columns, then diagonals, returning the first winning piece found. -/
def determine_winner (b : GameBoard) : Option Piece :=
  match (get_rows b).findSome? determine_winner_of_line with
  | some piece => some piece
  | none =>
    match (get_columns b).findSome? determine_winner_of_line with
    | some piece => some piece
    | none => (get_diagonals b).findSome? determine_winner_of_line

/-- Embeds `GameBoard::determine_winning_player` from game_model.rs. -/
def determine_winning_player (b : GameBoard) : Option Player :=
  (determine_winner b).map fun winning_piece =>
    if b.player_1.piece = winning_piece then b.player_1 else b.player_2

/-- Embeds `GameBoard::get_available_positions` from game_model.rs. -/
def get_available_positions (b : GameBoard) : List Nat :=
  POSITIONS.filter fun position =>
    match get_cell_at_position b position with
    | some cell => decide (cell = CellState.Empty)
    | none => false

/-- Embeds `GameBoard::is_board_full` from game_model.rs. -/
def is_board_full (b : GameBoard) : Bool :=
  (get_available_positions b).isEmpty

/-- Embeds `GameBoard::get_random_available_position` from game_model.rs. The call
`rand::thread_rng().gen_range(0..available_positions.len())` is modelled by
the extra parameter `k`, the index drawn by the generator (the generator
guarantees `k < available_positions.length` whenever the list is nonempty). -/
def get_random_available_position (b : GameBoard) (k : Nat) : Option Nat :=
  let available_positions := get_available_positions b
  if available_positions.isEmpty then
    none
  else
    available_positions[k]?

/-- Embeds `GameBoard::game_state` from game_model.rs (`map_or_else` written as a
match). -/
def game_state (b : GameBoard) : GameState :=
  match determine_winning_player b with
  | some player => GameState.Winner player
  | none => if is_board_full b then GameState.Draw else GameState.InProgress

/-- Embeds `GameBoard::is_game_over` from game_model.rs. -/
def is_game_over (b : GameBoard) : Bool :=
  (determine_winning_player b).isSome || is_board_full b

/-- The number of occupied cells of a board (the spec's "move count"). -/
def occupiedCount (b : GameBoard) : Nat :=
  (POSITIONS.filter fun position =>
    match get_cell_at_position b position with
    | some (CellState.Occupied _) => true
    | _ => false).length

/-- The other player id (the flip applied to `next_up` on success). -/
def otherPlayerID : PlayerID → PlayerID
  | .Player1 => PlayerID.Player2
  | .Player2 => PlayerID.Player1

/-- The piece that `play_next_up_at_position` would place: the piece of the
player indicated by `next_up`. -/
def nextUpPiece (b : GameBoard) : Piece :=
  match b.next_up with
  | .Player1 => b.player_1.piece
  | .Player2 => b.player_2.piece

/-- Sequential application of `play_next_up_at_position` to a list of
positions; `none` as soon as one move fails. -/
def playMoves (b : GameBoard) : List Nat → Option GameBoard
  | [] => some b
  | position :: rest =>
    match play_next_up_at_position b position with
    | (.ok _, b') => playMoves b' rest
    | (.error _, _) => none

/-! ### Basic lemmas about positions and coordinates -/

/-- Every coordinate produced by `coordinate_at_position` is inside the 3×3
grid, so the array accesses in `get_cell_at_position` and
`set_cell_at_position` never go out of bounds. -/
theorem coordinate_at_position_bounds {p : Nat} {c : Coordinate}
    (h : coordinate_at_position p = some c) : c.row < 3 ∧ c.col < 3 := by
  unfold coordinate_at_position at h
  split at h
  all_goals first
    | (injection h with h; subst h; decide)
    | exact Option.noConfusion h

/-- Out-of-range positions map to no coordinate. -/
theorem coordinate_at_position_eq_none {p : Nat} (h : p = 0 ∨ 10 ≤ p) :
    coordinate_at_position p = none := by
  rcases h with h | h
  · subst h; rfl
  · obtain ⟨k, rfl⟩ : ∃ k, p = k + 10 := ⟨p - 10, by omega⟩
    rfl

/-- The function `coordinate_at_position` succeeds exactly on positions `1..=9`. -/
theorem coordinate_at_position_isSome_iff {p : Nat} :
    (coordinate_at_position p).isSome ↔ (1 ≤ p ∧ p ≤ 9) := by
  constructor
  · intro h
    by_contra hc
    rw [coordinate_at_position_eq_none (by omega)] at h
    exact Bool.noConfusion h
  · intro h
    obtain ⟨h1, h2⟩ := h
    interval_cases p <;> rfl

/-- The function `readCell` succeeds on every in-bounds coordinate. -/
theorem readCell_isSome (cells : Cells) {c : Coordinate}
    (h : c.row < 3 ∧ c.col < 3) : (readCell cells c).isSome := by
  simp [readCell, h]

/-- The function `get_cell_at_position` succeeds exactly on positions `1..=9`. -/
theorem get_cell_at_position_isSome_iff {b : GameBoard} {p : Nat} :
    (get_cell_at_position b p).isSome ↔ (1 ≤ p ∧ p ≤ 9) := by
  rw [← coordinate_at_position_isSome_iff]
  unfold get_cell_at_position
  cases hc : coordinate_at_position p with
  | none => simp
  | some c =>
    simp only [Option.bind_some, Option.isSome_some, iff_true]
    exact readCell_isSome b.cells (coordinate_at_position_bounds hc)

/-- Distinct positions map to distinct coordinates. -/
theorem coordinate_at_position_injective {p q : Nat} {c : Coordinate}
    (hp : coordinate_at_position p = some c)
    (hq : coordinate_at_position q = some c) : p = q := by
  have h1 : 1 ≤ p ∧ p ≤ 9 := coordinate_at_position_isSome_iff.mp (by rw [hp]; rfl)
  have h2 : 1 ≤ q ∧ q ≤ 9 := coordinate_at_position_isSome_iff.mp (by rw [hq]; rfl)
  obtain ⟨hp1, hp9⟩ := h1
  obtain ⟨hq1, hq9⟩ := h2
  interval_cases p <;> interval_cases q <;>
    first
      | rfl
      | exact absurd (hp.trans hq.symm) (by decide)

/-- Reading back the cell just written. -/
theorem readCell_writeCell_same (cells : Cells) {c : Coordinate}
    (h : c.row < 3 ∧ c.col < 3) (v : CellState) :
    readCell (writeCell cells c v) c = some v := by
  simp [readCell, writeCell, h]

/-- A write leaves every other coordinate's cell unchanged. -/
theorem readCell_writeCell_ne (cells : Cells) {c c' : Coordinate} (v : CellState)
    (hne : c'.row ≠ c.row ∨ c'.col ≠ c.col) :
    readCell (writeCell cells c v) c' = readCell cells c' := by
  unfold readCell writeCell
  by_cases h : c'.row < 3 ∧ c'.col < 3
  · rcases hne with hne | hne <;> simp [h, hne]
  · simp [h]

/-! ### The three outcomes of `play_next_up_at_position` -/

/-- Invalid position: error, board returned unchanged. -/
theorem play_invalid {b : GameBoard} {p : Nat} (h : coordinate_at_position p = none) :
    play_next_up_at_position b p = (.error (invalidPositionMessage p), b) := by
  simp [play_next_up_at_position, get_cell_at_position, h]

/-- Occupied target cell: error, board returned unchanged. -/
theorem play_occupied {b : GameBoard} {p : Nat} {piece : Piece}
    (h : get_cell_at_position b p = some (CellState.Occupied piece)) :
    play_next_up_at_position b p = (.error occupiedMessage, b) := by
  simp [play_next_up_at_position, h]

/-- Empty target cell: success, the cell is written with the piece of the
`next_up` player and `next_up` flips; nothing else changes. -/
theorem play_success_eq {b : GameBoard} {p : Nat} {c : Coordinate}
    (hc : coordinate_at_position p = some c)
    (he : readCell b.cells c = some CellState.Empty) :
    play_next_up_at_position b p =
      (.ok (), { b with
        next_up := otherPlayerID b.next_up,
        cells := writeCell b.cells c (CellState.Occupied (nextUpPiece b)) }) := by
  obtain ⟨p1, p2, nu, cells⟩ := b
  have hg : get_cell_at_position ⟨p1, p2, nu, cells⟩ p = some CellState.Empty := by
    simp [get_cell_at_position, hc]
    exact he
  cases nu <;>
    simp [play_next_up_at_position, hg, set_cell_at_position, hc, otherPlayerID,
      nextUpPiece, Player.piece]

/-- An empty cell at a valid position decomposes into a coordinate and a
successful in-bounds read. -/
theorem get_cell_empty_elim {b : GameBoard} {p : Nat}
    (h : get_cell_at_position b p = some CellState.Empty) :
    ∃ c, coordinate_at_position p = some c ∧ readCell b.cells c = some CellState.Empty := by
  cases hc : coordinate_at_position p with
  | none => rw [get_cell_at_position, hc] at h; exact Option.noConfusion h
  | some c =>
    refine ⟨c, rfl, ?_⟩
    rw [get_cell_at_position, hc] at h
    exact h

/-- Reading the played position after a successful write. -/
theorem get_cell_update_same {p : Nat} {c : Coordinate}
    (hc : coordinate_at_position p = some c) (v : CellState) {cells : Cells}
    (b' : GameBoard) (hb : b'.cells = writeCell cells c v) :
    get_cell_at_position b' p = some v := by
  have hb3 := coordinate_at_position_bounds hc
  simp [get_cell_at_position, hc, hb, readCell_writeCell_same _ hb3]

/-- Reading any other position after a write is reading the old board. -/
theorem get_cell_update_ne {p q : Nat} {c : Coordinate}
    (hc : coordinate_at_position p = some c) (v : CellState)
    {b b' : GameBoard} (hb' : b'.cells = writeCell b.cells c v) (hne : q ≠ p) :
    get_cell_at_position b' q = get_cell_at_position b q := by
  cases hq : coordinate_at_position q with
  | none => simp [get_cell_at_position, hq]
  | some c' =>
    by_cases hrc : c'.row = c.row ∧ c'.col = c.col
    · exfalso
      have hcc : c' = c := by
        cases c'; cases c
        simp_all
      rw [hcc] at hq
      exact hne (coordinate_at_position_injective hq hc)
    · rcases not_and_or.mp hrc with hr | hr <;>
        simp [get_cell_at_position, hq, hb', readCell_writeCell_ne _ _ (by tauto)]

/-- Counting with a predicate that is flipped from `false` to `true` at a
single element occurring exactly once increments the count by one. -/
theorem countP_update_one {l : List Nat} {f g : Nat → Bool} {a : Nat}
    (ha : l.count a = 1) (hf : f a = true) (hg : g a = false)
    (hfg : ∀ q ∈ l, q ≠ a → f q = g q) :
    l.countP f = l.countP g + 1 := by
  induction l with
  | nil => simp at ha
  | cons x l ih =>
    by_cases hxa : x = a
    · subst hxa
      have hl : l.count x = 0 := by
        have := List.count_cons_self x l
        omega
      have hnotmem : x ∉ l := by
        rw [← List.count_eq_zero]
        exact hl
      have hcongr : l.countP f = l.countP g := by
        refine List.countP_congr fun q hq => ?_
        have : q ≠ x := fun hqx => hnotmem (hqx ▸ hq)
        rw [hfg q (List.mem_cons_of_mem x hq) this]
      simp [List.countP_cons, hf, hg, hcongr]
    · have ha' : l.count a = 1 := by
        rw [List.count_cons] at ha
        simp only [beq_iff_eq, if_neg hxa] at ha
        omega
      have hx : f x = g x := hfg x (List.mem_cons_self x l) hxa
      have hrest : ∀ q ∈ l, q ≠ a → f q = g q :=
        fun q hq => hfg q (List.mem_cons_of_mem x hq)
      rw [List.countP_cons, List.countP_cons, hx, ih ha' hrest]
      omega

/-- A valid position occurs exactly once in `POSITIONS`. -/
theorem count_POSITIONS {p : Nat} (h1 : 1 ≤ p) (h9 : p ≤ 9) :
    POSITIONS.count p = 1 := by
  interval_cases p <;> decide

/-- Membership in `POSITIONS` is being in `1..=9`. -/
theorem mem_POSITIONS {p : Nat} : p ∈ POSITIONS ↔ 1 ≤ p ∧ p ≤ 9 := by
  rw [POSITIONS, List.mem_range']
  constructor
  · rintro ⟨i, hi, rfl⟩
    omega
  · rintro ⟨h1, h9⟩
    exact ⟨p - 1, by omega, by omega⟩

/-- A successful move increments the number of occupied cells by one. -/
theorem occupiedCount_play {b : GameBoard} {p : Nat} {c : Coordinate}
    (hc : coordinate_at_position p = some c)
    (he : readCell b.cells c = some CellState.Empty) :
    occupiedCount (play_next_up_at_position b p).2 = occupiedCount b + 1 := by
  have hp : 1 ≤ p ∧ p ≤ 9 := coordinate_at_position_isSome_iff.mp (by rw [hc]; rfl)
  have hgb : get_cell_at_position b p = some CellState.Empty := by
    rw [get_cell_at_position, hc]
    exact he
  rw [play_success_eq hc he]
  set b' : GameBoard :=
    { b with
      next_up := otherPlayerID b.next_up,
      cells := writeCell b.cells c (CellState.Occupied (nextUpPiece b)) } with hb'
  unfold occupiedCount
  rw [← List.countP_eq_length_filter, ← List.countP_eq_length_filter]
  refine countP_update_one (count_POSITIONS hp.1 hp.2) ?_ ?_ ?_
  · have : get_cell_at_position b' p = some (CellState.Occupied (nextUpPiece b)) :=
      get_cell_update_same hc _ b' rfl
    simp [this]
  · simp [hgb]
  · intro q _ hq
    have : get_cell_at_position b' q = get_cell_at_position b q :=
      get_cell_update_ne hc _ rfl hq
    simp [this]

/-- The function `get_cell_at_position` fails exactly when the position has no coordinate. -/
theorem get_cell_none_iff {b : GameBoard} {p : Nat} :
    get_cell_at_position b p = none ↔ coordinate_at_position p = none := by
  rw [← Option.not_isSome_iff_eq_none, ← Option.not_isSome_iff_eq_none,
    get_cell_at_position_isSome_iff, coordinate_at_position_isSome_iff]

/-- A successful `play_next_up_at_position` call was on a valid, empty cell. -/
theorem play_ok_elim {b : GameBoard} {p : Nat}
    (h : (play_next_up_at_position b p).1 = .ok ()) :
    ∃ c, coordinate_at_position p = some c ∧ readCell b.cells c = some CellState.Empty := by
  cases hg : get_cell_at_position b p with
  | none =>
    rw [play_invalid (get_cell_none_iff.mp hg)] at h
    exact Except.noConfusion h
  | some cell =>
    cases cell with
    | Empty => exact get_cell_empty_elim hg
    | Occupied piece =>
      rw [play_occupied hg] at h
      exact Except.noConfusion h

/-- The function `otherPlayerID` is an involution. -/
theorem otherPlayerID_involutive (id : PlayerID) :
    otherPlayerID (otherPlayerID id) = id := by
  cases id <;> rfl

/-- Every successful move flips `next_up`. -/
theorem play_ok_next_up {b : GameBoard} {p : Nat}
    (h : (play_next_up_at_position b p).1 = .ok ()) :
    (play_next_up_at_position b p).2.next_up = otherPlayerID b.next_up := by
  obtain ⟨c, hc, he⟩ := play_ok_elim h
  rw [play_success_eq hc he]

/-- No move ever changes the players or their pieces. -/
theorem play_players {b : GameBoard} {p : Nat} :
    (play_next_up_at_position b p).2.player_1 = b.player_1 ∧
      (play_next_up_at_position b p).2.player_2 = b.player_2 := by
  cases hg : get_cell_at_position b p with
  | none => rw [play_invalid (get_cell_none_iff.mp hg)]; exact ⟨rfl, rfl⟩
  | some cell =>
    cases cell with
    | Occupied piece => rw [play_occupied hg]; exact ⟨rfl, rfl⟩
    | Empty =>
      obtain ⟨c, hc, he⟩ := get_cell_empty_elim hg
      rw [play_success_eq hc he]
      exact ⟨rfl, rfl⟩

/-- Over any sequence of successful moves, `next_up` strictly alternates
starting from the initial `next_up`: after an even number of moves it is the
initial slot, after an odd number the other slot. -/
theorem playMoves_next_up : ∀ {ms : List Nat} {b b' : GameBoard},
    playMoves b ms = some b' →
    b'.next_up = if ms.length % 2 = 0 then b.next_up else otherPlayerID b.next_up := by
  intro ms
  induction ms with
  | nil =>
    intro b b' h
    simp only [playMoves] at h
    cases h
    rfl
  | cons p rest ih =>
    intro b b' h
    simp only [playMoves] at h
    split at h
    case _ u b'' heq =>
      have hok : (play_next_up_at_position b p).1 = .ok () := by rw [heq]
      have hnu : b''.next_up = otherPlayerID b.next_up := by
        have := play_ok_next_up hok
        rw [heq] at this
        exact this
      rw [ih h, hnu]
      rcases Nat.even_or_odd rest.length with he | ho
      · have h0 : rest.length % 2 = 0 := Nat.even_iff.mp he
        have h1 : (rest.length + 1) % 2 ≠ 0 := by omega
        simp [h0, h1]
      · have h1 : rest.length % 2 = 1 := Nat.odd_iff.mp ho
        have h0 : (rest.length + 1) % 2 = 0 := by omega
        simp [h1, h0, otherPlayerID_involutive]
    case _ e b'' heq =>
      exact Option.noConfusion h

/-! ### Win detection -/

/-- A line is fully owned by a piece: nonempty and every cell occupied by it. -/
def lineOwnedBy (line : List CellState) (piece : Piece) : Prop :=
  line ≠ [] ∧ ∀ cell ∈ line, cell = CellState.Occupied piece

instance (line : List CellState) (piece : Piece) : Decidable (lineOwnedBy line piece) :=
  inferInstanceAs (Decidable (_ ∧ _))

/-- The 8 lines examined by `determine_winner`: 3 rows, 3 columns, 2
diagonals, in scan order. -/
def allLines (b : GameBoard) : List (List CellState) :=
  get_rows b ++ get_columns b ++ get_diagonals b

/-- The function `determine_winner_of_line` finds a piece exactly when the line is fully
owned by that piece. -/
theorem determine_winner_of_line_eq_some_iff {line : List CellState} {piece : Piece} :
    determine_winner_of_line line = some piece ↔ lineOwnedBy line piece := by
  cases line with
  | nil => simp [determine_winner_of_line, lineOwnedBy]
  | cons first rest =>
    cases first with
    | Empty =>
      simp only [determine_winner_of_line, lineOwnedBy]
      constructor
      · intro h
        exact Option.noConfusion h
      · intro ⟨_, h⟩
        exact absurd (h CellState.Empty (List.mem_cons_self _ _)) (by simp)
    | Occupied q =>
      simp only [determine_winner_of_line, lineOwnedBy]
      rw [apply_ite (· = some piece)]
      constructor
      · intro h
        split at h
        case isTrue hall =>
          rw [List.countP_eq_length] at hall
          cases h
          refine ⟨by simp, fun cell hc => ?_⟩
          have := hall cell hc
          simpa using this
        case isFalse => exact Option.noConfusion h
      · intro ⟨_, hall⟩
        have hq : q = piece := by
          have := hall (CellState.Occupied q) (List.mem_cons_self _ _)
          injection this
        subst hq
        have hcnt : List.countP (fun cell => decide (cell = CellState.Occupied q))
            (CellState.Occupied q :: rest) = (CellState.Occupied q :: rest).length := by
          rw [List.countP_eq_length]
          intro cell hc
          simp [hall cell hc]
        rw [if_pos hcnt]

/-- The function `determine_winner` is the first result of `determine_winner_of_line`
over the 8 lines in scan order. -/
theorem determine_winner_eq_findSome (b : GameBoard) :
    determine_winner b = (allLines b).findSome? determine_winner_of_line := by
  rw [allLines, List.findSome?_append, List.findSome?_append]
  unfold determine_winner
  cases (get_rows b).findSome? determine_winner_of_line <;>
    cases (get_columns b).findSome? determine_winner_of_line <;>
    simp [Option.or]

/-- A winning piece returned by `determine_winner` really owns one of the 8
lines. -/
theorem determine_winner_some_elim {b : GameBoard} {piece : Piece}
    (h : determine_winner b = some piece) :
    ∃ line ∈ allLines b, lineOwnedBy line piece := by
  rw [determine_winner_eq_findSome] at h
  obtain ⟨line, hmem, hline⟩ := List.exists_of_findSome?_eq_some h
  exact ⟨line, hmem, determine_winner_of_line_eq_some_iff.mp hline⟩

/-- The function `determine_winner` returns `none` exactly when no line is fully owned. -/
theorem determine_winner_none_iff {b : GameBoard} :
    determine_winner b = none ↔ ∀ line ∈ allLines b, ∀ piece, ¬ lineOwnedBy line piece := by
  rw [determine_winner_eq_findSome, List.findSome?_eq_none_iff]
  constructor
  · intro h line hmem piece hown
    have := h line hmem
    rw [determine_winner_of_line_eq_some_iff.mpr hown] at this
    exact Option.noConfusion this
  · intro h line hmem
    cases hw : determine_winner_of_line line with
    | none => rfl
    | some piece =>
      exact absurd (determine_winner_of_line_eq_some_iff.mp hw) (h line hmem piece)

/-! ### Available positions -/

/-- Membership in `get_available_positions` is exactly "the cell is empty"
(which forces the position into `1..=9`). -/
theorem mem_get_available_positions {b : GameBoard} {p : Nat} :
    p ∈ get_available_positions b ↔ get_cell_at_position b p = some CellState.Empty := by
  unfold get_available_positions
  rw [List.mem_filter]
  constructor
  · rintro ⟨_, hpred⟩
    cases hg : get_cell_at_position b p with
    | none => rw [hg] at hpred; exact Bool.noConfusion hpred
    | some cell =>
      rw [hg] at hpred
      have hcell : cell = CellState.Empty := of_decide_eq_true hpred
      rw [hcell]
  · intro hg
    have hp : 1 ≤ p ∧ p ≤ 9 := get_cell_at_position_isSome_iff.mp (by rw [hg]; rfl)
    refine ⟨mem_POSITIONS.mpr hp, ?_⟩
    rw [hg]
    simp

/-- The list of available positions is strictly ascending. -/
theorem get_available_positions_sorted (b : GameBoard) :
    List.Pairwise (· < ·) (get_available_positions b) := by
  have hP : List.Pairwise (· < ·) POSITIONS := by decide
  exact hP.filter _

/-- The list of available positions has no duplicates. -/
theorem get_available_positions_nodup (b : GameBoard) :
    (get_available_positions b).Nodup :=
  (get_available_positions_sorted b).imp Nat.ne_of_lt

/-- The function `is_board_full` is exactly emptiness of the available-position list. -/
theorem is_board_full_iff {b : GameBoard} :
    is_board_full b = true ↔ get_available_positions b = [] := by
  rw [is_board_full, List.isEmpty_iff]

/-! ### Concrete boards used to instantiate the theorems -/

/-- The all-empty grid. -/
def emptyCells : Cells := fun _ _ => CellState.Empty

/-- A grid given cell by cell, row-major. -/
def mkCells (c00 c01 c02 c10 c11 c12 c20 c21 c22 : CellState) : Cells :=
  fun i j =>
    match i.val, j.val with
    | 0, 0 => c00
    | 0, 1 => c01
    | 0, 2 => c02
    | 1, 0 => c10
    | 1, 1 => c11
    | 1, 2 => c12
    | 2, 0 => c20
    | 2, 1 => c21
    | _, _ => c22

/-- A fresh board: human X as player 1, computer O as player 2, player 1 up. -/
def emptyBoard : GameBoard :=
  ⟨Player.Human Piece.X, Player.Computer Piece.O, PlayerID.Player1, emptyCells⟩

/-- A board with X already at position 1, player 2 up. -/
def oneMoveBoard : GameBoard :=
  ⟨Player.Human Piece.X, Player.Computer Piece.O, PlayerID.Player2,
    mkCells (.Occupied .X) .Empty .Empty .Empty .Empty .Empty .Empty .Empty .Empty⟩

/-- A board already won by X across the top row, with empty cells left. -/
def topRowXBoard : GameBoard :=
  ⟨Player.Human Piece.X, Player.Computer Piece.O, PlayerID.Player2,
    mkCells (.Occupied .X) (.Occupied .X) (.Occupied .X)
      .Empty .Empty .Empty .Empty .Empty .Empty⟩

/-- A malformed board (unreachable through legal play) in which X owns the
top row and O owns the middle row simultaneously. -/
def doubleWinBoard : GameBoard :=
  ⟨Player.Human Piece.X, Player.Computer Piece.O, PlayerID.Player1,
    mkCells (.Occupied .X) (.Occupied .X) (.Occupied .X)
      (.Occupied .O) (.Occupied .O) (.Occupied .O)
      .Empty .Empty .Empty⟩

/-- A full board with no winning line. -/
def fullDrawBoard : GameBoard :=
  ⟨Player.Human Piece.X, Player.Computer Piece.O, PlayerID.Player1,
    mkCells (.Occupied .X) (.Occupied .X) (.Occupied .O)
      (.Occupied .O) (.Occupied .O) (.Occupied .X)
      (.Occupied .X) (.Occupied .X) (.Occupied .O)⟩

/-! ### The claims -/

/-- C1: on any board, playing a position in `1..=9` whose cell is `Empty`
succeeds; the cell transitions from `Empty` to `Occupied` with the mark of
the player indicated by `next_up`; `next_up` flips to the other slot; the
number of occupied cells increments by one. Consequently, over any sequence
of successful `apply` calls, `next_up` strictly alternates Player1/Player2
starting from the initial `next_up` (after an even number of successful
moves it is the initial slot, after an odd number the other one). -/
theorem claim_play_success_and_alternation :
    (∀ (b : GameBoard) (p : Nat), get_cell_at_position b p = some CellState.Empty →
      (play_next_up_at_position b p).1 = .ok () ∧
      get_cell_at_position (play_next_up_at_position b p).2 p
        = some (CellState.Occupied (nextUpPiece b)) ∧
      (play_next_up_at_position b p).2.next_up = otherPlayerID b.next_up ∧
      occupiedCount (play_next_up_at_position b p).2 = occupiedCount b + 1) ∧
    (∀ (b b' : GameBoard) (ms : List Nat), playMoves b ms = some b' →
      b'.next_up = if ms.length % 2 = 0 then b.next_up else otherPlayerID b.next_up) := by
  constructor
  · intro b p h
    obtain ⟨c, hc, he⟩ := get_cell_empty_elim h
    refine ⟨?_, ?_, ?_, occupiedCount_play hc he⟩
    · rw [play_success_eq hc he]
    · rw [play_success_eq hc he]
      exact get_cell_update_same hc _ _ rfl
    · rw [play_success_eq hc he]
  · intro b b' ms h
    exact playMoves_next_up h

/-- Witness for C1 at the fresh board and position 5. -/
theorem claim_play_success_and_alternation_witness :
    (play_next_up_at_position emptyBoard 5).1 = .ok () ∧
    get_cell_at_position (play_next_up_at_position emptyBoard 5).2 5
      = some (CellState.Occupied (nextUpPiece emptyBoard)) ∧
    (play_next_up_at_position emptyBoard 5).2.next_up = otherPlayerID emptyBoard.next_up ∧
    occupiedCount (play_next_up_at_position emptyBoard 5).2 = occupiedCount emptyBoard + 1 :=
  claim_play_success_and_alternation.1 emptyBoard 5 (by decide)

/-- C2 counterexample: on the malformed board where X owns the top row and O
owns the middle row, some line is fully owned by O, yet `determine_winner`
does not return `some O` (it returns the first scanned winner, X) — so
"returns `Some(mark)` iff some line is fully owned by that mark" fails in
the right-to-left direction. -/
theorem claim_winner_iff_counterexample :
    (∃ line ∈ allLines doubleWinBoard, lineOwnedBy line Piece.O) ∧
    determine_winner doubleWinBoard ≠ some Piece.O := by decide

/-- C2 (amended): any mark returned by `determine_winner` fully owns one of
the 8 fixed lines (3 rows, 3 columns, 2 diagonals), and `determine_winner`
returns `none` exactly when no line is fully owned by one mark. (On boards
where two different marks each own a line — unreachable through legal play —
only the first mark in scan order is returned.) -/
theorem claim_winner_characterization :
    ∀ b : GameBoard,
      (∀ piece, determine_winner b = some piece →
        ∃ line ∈ allLines b, lineOwnedBy line piece) ∧
      (determine_winner b = none ↔
        ∀ line ∈ allLines b, ∀ piece, ¬ lineOwnedBy line piece) :=
  fun _ => ⟨fun _ h => determine_winner_some_elim h, determine_winner_none_iff⟩

/-- Witness for C2 on the board with a completed X top row. -/
theorem claim_winner_characterization_witness :
    ∃ line ∈ allLines topRowXBoard, lineOwnedBy line Piece.X :=
  (claim_winner_characterization topRowXBoard).1 Piece.X (by decide)

/-- C3: playing a position whose cell is already occupied returns the
"already occupied" error and returns the board bit-for-bit unchanged
(cells, players and `next_up` identical). -/
theorem claim_occupied_idempotent_failure :
    ∀ (b : GameBoard) (p : Nat) (piece : Piece),
      get_cell_at_position b p = some (CellState.Occupied piece) →
      play_next_up_at_position b p = (.error occupiedMessage, b) :=
  fun _ _ _ h => play_occupied h

/-- Witness for C3: replaying position 1 on a board where it is taken. -/
theorem claim_occupied_idempotent_failure_witness :
    play_next_up_at_position oneMoveBoard 1 = (.error occupiedMessage, oneMoveBoard) :=
  claim_occupied_idempotent_failure oneMoveBoard 1 Piece.X (by decide)

/-- C4: `game_state` returns `Winner` of the winning player when one exists,
else `Draw` when the board is full, else `InProgress`; and `is_board_full`
holds exactly when `get_available_positions` is empty. -/
theorem claim_game_state_branches :
    ∀ b : GameBoard,
      (∀ player, determine_winning_player b = some player →
        game_state b = GameState.Winner player) ∧
      (determine_winning_player b = none → is_board_full b = true →
        game_state b = GameState.Draw) ∧
      (determine_winning_player b = none → is_board_full b = false →
        game_state b = GameState.InProgress) ∧
      (is_board_full b = true ↔ get_available_positions b = []) := by
  intro b
  refine ⟨?_, ?_, ?_, is_board_full_iff⟩
  · intro player h
    simp [game_state, h]
  · intro h hf
    simp [game_state, h, hf]
  · intro h hf
    simp [game_state, h, hf]

/-- Witness for C4: the full drawn board reports `Draw`. -/
theorem claim_game_state_branches_witness :
    game_state fullDrawBoard = GameState.Draw :=
  (claim_game_state_branches fullDrawBoard).2.1 (by decide) (by decide)

/-- C5: playing position 0 or any position ≥ 10 returns the invalid-position
error and leaves the board unchanged, regardless of board contents. -/
theorem claim_invalid_position :
    ∀ (b : GameBoard) (p : Nat), p = 0 ∨ 10 ≤ p →
      play_next_up_at_position b p = (.error (invalidPositionMessage p), b) :=
  fun _ _ h => play_invalid (coordinate_at_position_eq_none h)

/-- Witness for C5 at position 10 on the fresh board. -/
theorem claim_invalid_position_witness :
    play_next_up_at_position emptyBoard 10
      = (.error (invalidPositionMessage 10), emptyBoard) :=
  claim_invalid_position emptyBoard 10 (Or.inr (by decide))

/-- C6: `get_available_positions` returns exactly the positions of `1..=9`
whose cell is currently `Empty` (computed from the live board it is given),
in strictly ascending order of position index. -/
theorem claim_available_positions :
    ∀ b : GameBoard,
      (∀ p, p ∈ get_available_positions b ↔
        (1 ≤ p ∧ p ≤ 9) ∧ get_cell_at_position b p = some CellState.Empty) ∧
      List.Pairwise (· < ·) (get_available_positions b) := by
  intro b
  refine ⟨fun p => ?_, get_available_positions_sorted b⟩
  rw [mem_get_available_positions]
  constructor
  · intro h
    exact ⟨get_cell_at_position_isSome_iff.mp (by rw [h]; rfl), h⟩
  · exact And.right

/-- Witness for C6: position 5 is available on the fresh board. -/
theorem claim_available_positions_witness :
    5 ∈ get_available_positions emptyBoard :=
  ((claim_available_positions emptyBoard).1 5).mpr (by decide)

/-- C7: `get_random_available_position` (with `k` the index drawn by the
generator from `0..len`) returns only positions whose cell is currently
`Empty`; it returns `none` when the board is full and `some` otherwise; and
the draw is uniform over the available set: distinct in-range indices give
distinct positions, with every available position hit by exactly one index. -/
theorem claim_random_available_position :
    ∀ (b : GameBoard) (k : Nat),
      (∀ p, get_random_available_position b k = some p →
        p ∈ get_available_positions b ∧
          get_cell_at_position b p = some CellState.Empty) ∧
      (is_board_full b = true → get_random_available_position b k = none) ∧
      (is_board_full b = false → k < (get_available_positions b).length →
        ∃ p, get_random_available_position b k = some p) ∧
      (∀ p ∈ get_available_positions b,
        ∃! j, j < (get_available_positions b).length ∧
          get_random_available_position b j = some p) := by
  intro b k
  have hbf : is_board_full b = (get_available_positions b).isEmpty := rfl
  refine ⟨?_, ?_, ?_, ?_⟩
  · intro p h
    by_cases hE : (get_available_positions b).isEmpty = true
    · simp [get_random_available_position, hE] at h
    · simp only [get_random_available_position, if_neg hE] at h
      have hmem := List.getElem?_mem h
      exact ⟨hmem, mem_get_available_positions.mp hmem⟩
  · intro hfull
    have hE : (get_available_positions b).isEmpty = true := hbf ▸ hfull
    simp [get_random_available_position, hE]
  · intro hfull hk
    have hE : ¬ (get_available_positions b).isEmpty = true := by
      rw [← hbf, hfull]
      exact Bool.false_ne_true
    refine ⟨(get_available_positions b)[k], ?_⟩
    simp only [get_random_available_position, if_neg hE]
    exact List.getElem?_eq_getElem hk
  · intro p hp
    obtain ⟨n, hn, hgetn⟩ := List.getElem_of_mem hp
    have hE : ¬ (get_available_positions b).isEmpty = true := by
      rw [List.isEmpty_iff]
      intro h
      rw [h] at hp
      exact absurd hp (List.not_mem_nil p)
    refine ⟨n, ⟨hn, ?_⟩, ?_⟩
    · simp only [get_random_available_position, if_neg hE]
      rw [List.getElem?_eq_getElem hn, hgetn]
    · rintro j ⟨hj, hjp⟩
      simp only [get_random_available_position, if_neg hE] at hjp
      refine List.getElem?_inj hj (get_available_positions_nodup b) ?_
      rw [hjp, List.getElem?_eq_getElem hn, hgetn]

/-- Witness for C7: drawing index 3 on the fresh board yields a position. -/
theorem claim_random_available_position_witness :
    ∃ p, get_random_available_position emptyBoard 3 = some p :=
  (claim_random_available_position emptyBoard 3).2.2.1 (by decide) (by decide)

/-- C8: the two indexing schemes agree: every position in `1..=9` maps to
the coordinate `row = (p-1)/3`, `col = (p-1)%3`, and `get_cell_at_position`
reads exactly that grid cell; every position outside `1..=9` maps to no
coordinate. -/
theorem claim_indexing_schemes_agree :
    ∀ p : Nat,
      (1 ≤ p → p ≤ 9 → ∃ c, coordinate_at_position p = some c ∧
        c.row = (p - 1) / 3 ∧ c.col = (p - 1) % 3 ∧
        ∀ b : GameBoard, get_cell_at_position b p = readCell b.cells c) ∧
      (p = 0 ∨ 10 ≤ p → coordinate_at_position p = none) := by
  intro p
  constructor
  · intro h1 h9
    interval_cases p <;> exact ⟨_, rfl, by decide, by decide, fun b => rfl⟩
  · exact coordinate_at_position_eq_none

/-- Witness for C8 at position 5 (centre: row 1, col 1). -/
theorem claim_indexing_schemes_agree_witness :
    ∃ c, coordinate_at_position 5 = some c ∧
      c.row = (5 - 1) / 3 ∧ c.col = (5 - 1) % 3 ∧
      ∀ b : GameBoard, get_cell_at_position b 5 = readCell b.cells c :=
  (claim_indexing_schemes_agree 5).1 (by decide) (by decide)

/-- C9: the engine never panics: for every board and every position
(including out-of-range values) the internal grid access of
`get_cell_at_position` / `play_next_up_at_position` is in bounds (the
modelled array read succeeds on every coordinate the code produces), and
out-of-range positions yield `none` / an error value with the board
unchanged rather than an out-of-bounds access. -/
theorem claim_no_panic :
    ∀ (b : GameBoard) (p : Nat),
      (∀ c, coordinate_at_position p = some c → (readCell b.cells c).isSome = true) ∧
      (coordinate_at_position p = none →
        get_cell_at_position b p = none ∧
        play_next_up_at_position b p = (.error (invalidPositionMessage p), b)) := by
  intro b p
  constructor
  · intro c hc
    exact readCell_isSome b.cells (coordinate_at_position_bounds hc)
  · intro h
    exact ⟨get_cell_none_iff.mpr h, play_invalid h⟩

/-- Witness for C9: the centre coordinate read succeeds, and position 0
errors out. -/
theorem claim_no_panic_witness :
    (readCell emptyBoard.cells Coordinate.MIDDLE_CENTER).isSome = true ∧
    play_next_up_at_position emptyBoard 0
      = (.error (invalidPositionMessage 0), emptyBoard) :=
  ⟨(claim_no_panic emptyBoard 5).1 Coordinate.MIDDLE_CENTER (by decide),
    ((claim_no_panic emptyBoard 0).2 (by decide)).2⟩

/-- C10: the engine does not enforce terminality: even on a board that
already has a winner, playing any empty cell still succeeds and mutates the
board (the cell becomes occupied); `play_next_up_at_position` never
inspects the game status. -/
theorem claim_no_terminality_check :
    ∀ (b : GameBoard) (p : Nat),
      determine_winner b ≠ none →
      get_cell_at_position b p = some CellState.Empty →
      (play_next_up_at_position b p).1 = .ok () ∧
      get_cell_at_position (play_next_up_at_position b p).2 p
        = some (CellState.Occupied (nextUpPiece b)) := by
  intro b p _ he
  obtain ⟨c, hc, hrc⟩ := get_cell_empty_elim he
  constructor
  · rw [play_success_eq hc hrc]
  · rw [play_success_eq hc hrc]
    exact get_cell_update_same hc _ _ rfl

/-- Witness for C10: playing the centre of a board X has already won. -/
theorem claim_no_terminality_check_witness :
    (play_next_up_at_position topRowXBoard 5).1 = .ok () ∧
    get_cell_at_position (play_next_up_at_position topRowXBoard 5).2 5
      = some (CellState.Occupied (nextUpPiece topRowXBoard)) :=
  claim_no_terminality_check topRowXBoard 5 (by decide) (by decide)

end TicTacToe
